import Mathlib

/-!
Verification development for the pull-and-push-image repository
(a Docker image sync tool: frontend in `frontend/src/App.jsx`,
backend orchestrator described by the specification).

Definitions in the first part embed the frontend source directly;
definitions whose doc comment starts with `Modelled from the spec:`
model backend components whose Python sources are not in the tree
(only the frontend, README and deploy scripts are), following the
specification's description of them.
-/

namespace ImageSync

/-! ### Frontend embeddings (from `App.jsx`) -/

/-- The platform choices offered by the UI (`PLATFORMS` in `App.jsx`). -/
def PLATFORM_IDS : List String := ["linux/amd64", "linux/arm64"]

/-- `STATUS_MAP` from `App.jsx`: status key, label, color class. -/
def STATUS_MAP : List (String × String × String) :=
  [ ("pending", "等待中", "text-gray-400")
  , ("pulling", "拉取中", "text-yellow-400")
  , ("pushing", "推送中", "text-blue-400")
  , ("success", "成功", "text-green-400")
  , ("failed", "失败", "text-red-400") ]

/-- Initial value of the `selectedPlatforms` state in `App.jsx`. -/
def initialSelectedPlatforms : List String := ["linux/amd64", "linux/arm64"]

/-- `togglePlatform` from `App.jsx`: removing is a no-op when exactly one
platform remains selected; otherwise toggles membership. -/
def togglePlatform (prev : List String) (platformId : String) : List String :=
  if prev.contains platformId then
    if prev.length = 1 then prev
    else prev.filter (fun p => decide (p ≠ platformId))
  else prev ++ [platformId]

/-! ### Task data model -/

/-- Task status enum, per the spec data model and the frontend `STATUS_MAP`. -/
inductive Status where
  | pending
  | pulling
  | pushing
  | success
  | failed
deriving DecidableEq

/-- The string key a status is serialized as (matches `STATUS_MAP` keys). -/
def Status.key : Status → String
  | .pending => "pending"
  | .pulling => "pulling"
  | .pushing => "pushing"
  | .success => "success"
  | .failed => "failed"

/-- All five statuses. -/
def allStatuses : List Status :=
  [.pending, .pulling, .pushing, .success, .failed]

/-- Per-platform result, per the spec data model. -/
inductive PlatformResult where
  | pushed
  | skippedMissing
  | failed
deriving DecidableEq

/-- Outcome of pulling one platform variant from the source registry. -/
inductive PullOutcome where
  | ok
  | missingPlatform
  | pullError
deriving DecidableEq

/-- Outcome of pushing one image (or the manifest) to the destination. -/
inductive PushOutcome where
  | ok
  | pushError
deriving DecidableEq

/-- One requested platform together with the outcomes the external world
produces for its pull and its push. -/
structure PlatformSpec where
  name : String
  pullOutcome : PullOutcome
  pushOutcome : PushOutcome
deriving DecidableEq

/-- Environment of one Docker-path strategy run: the requested platforms in
request order and the outcome of the final manifest push. -/
structure Env where
  platforms : List PlatformSpec
  manifestOutcome : PushOutcome
deriving DecidableEq

/-- A snapshot of one task as observed by pollers. -/
structure TaskSnapshot where
  status : Status
  progress : ℕ
  log : List String
  results : List (String × PlatformResult)
  manifest : Option (List String)
deriving DecidableEq

/-- A freshly created task: `pending`, progress 0, empty log. -/
def initialSnap : TaskSnapshot :=
  { status := .pending, progress := 0, log := [], results := [], manifest := none }

/-! ### Docker-path strategy, modelled as a sequence of registry mutations -/

/-- Modelled from the spec: progress during the pulling phase after `i` of
`n` platforms, "pulling phase maps to 0-50%, evenly divided across
platforms" (backend `image_sync.py` is not in the tree). -/
def pullProgress (i n : ℕ) : ℕ := 50 * i / n

/-- Modelled from the spec: progress during the pushing phase after `i` of
`n` platforms, "pushing phase maps to 50-90%, evenly divided across
platforms". -/
def pushProgress (i n : ℕ) : ℕ := 50 + 40 * i / n

/-- Modelled from the spec: progress when manifest creation+push starts. -/
def manifestProgress : ℕ := 90

/-- Modelled from the spec: progress on success. -/
def successProgress : ℕ := 100

/-- One registry mutation performed by the pipeline: it sets status and
progress, appends one log line, appends per-platform results, and may set
the manifest contents. -/
structure Ev where
  status : Status
  progress : ℕ
  msg : String
  addResults : List (String × PlatformResult)
  setManifest : Option (List String)
deriving DecidableEq

/-- Apply one mutation to a task snapshot. -/
def applyEv (s : TaskSnapshot) (e : Ev) : TaskSnapshot :=
  { status := e.status
  , progress := e.progress
  , log := s.log ++ [e.msg]
  , results := s.results ++ e.addResults
  , manifest := match e.setManifest with | some m => some m | none => s.manifest }

/-- Log line for one platform's pull step. -/
def pullMsg (p : PlatformSpec) : String :=
  match p.pullOutcome with
  | .ok => "pulled " ++ p.name
  | .missingPlatform => "platform not available upstream, skipping " ++ p.name
  | .pullError => "pull error for " ++ p.name

/-- Per-platform results recorded during the pull step: a missing variant is
recorded `skippedMissing`, any other pull failure is recorded `failed`. -/
def pullResults (p : PlatformSpec) : List (String × PlatformResult) :=
  match p.pullOutcome with
  | .ok => []
  | .missingPlatform => [(p.name, .skippedMissing)]
  | .pullError => [(p.name, .failed)]

/-- Modelled from the spec: the registry mutation for pulling the `i`-th of
`n` platforms (status `pulling`, progress in 0-50). -/
def mkPullEv (n i : ℕ) (p : PlatformSpec) : Ev :=
  { status := .pulling
  , progress := pullProgress (i + 1) n
  , msg := pullMsg p
  , addResults := pullResults p
  , setManifest := none }

/-- The pull-phase mutations, one per requested platform in request order. -/
def pullEvents (env : Env) : List Ev :=
  env.platforms.enum.map (fun ip => mkPullEv env.platforms.length ip.1 ip.2)

/-- The platforms whose pull succeeded (they proceed to the push phase). -/
def pulledSpecs (env : Env) : List PlatformSpec :=
  env.platforms.filter (fun p => decide (p.pullOutcome = PullOutcome.ok))

/-- Log line for one platform's push step. -/
def pushMsg (p : PlatformSpec) : String :=
  match p.pushOutcome with
  | .ok => "pushed " ++ p.name
  | .pushError => "push error for " ++ p.name

/-- Modelled from the spec: the registry mutation for pushing the `j`-th
successfully pulled platform (status `pushing`, progress in 50-90). -/
def mkPushEv (n j : ℕ) (p : PlatformSpec) : Ev :=
  { status := .pushing
  , progress := pushProgress (j + 1) n
  , msg := pushMsg p
  , addResults := [(p.name, match p.pushOutcome with
      | .ok => PlatformResult.pushed
      | .pushError => PlatformResult.failed)]
  , setManifest := none }

/-- The push-phase mutations, one per successfully pulled platform. -/
def pushEvents (env : Env) : List Ev :=
  (pulledSpecs env).enum.map (fun jp => mkPushEv env.platforms.length jp.1 jp.2)

/-- The platforms that were pulled and pushed successfully. -/
def pushedSpecs (env : Env) : List PlatformSpec :=
  env.platforms.filter
    (fun p => decide (p.pullOutcome = PullOutcome.ok ∧ p.pushOutcome = PushOutcome.ok))

/-- Names of the successfully pushed platforms (manifest entries). -/
def pushedNames (env : Env) : List String :=
  (pushedSpecs env).map PlatformSpec.name

/-- Progress reached when the push phase ends. -/
def progressAfterPush (env : Env) : ℕ :=
  if (pulledSpecs env).length = 0 then
    pullProgress env.platforms.length env.platforms.length
  else
    pushProgress (pulledSpecs env).length env.platforms.length

/-- Summary log line when no platform could be pushed. -/
def failSummaryMsg (env : Env) : String :=
  "no platforms pushed: " ++
    String.intercalate ", " (env.platforms.map (fun p => pullMsg p ++ "; " ++ pushMsg p))

/-- Modelled from the spec: the final mutations. If at least one platform
was pushed, create a manifest list referencing exactly the pushed platforms
and push it (success sets progress 100; a manifest push error ends
`failed`). If zero platforms were pushed, skip manifest creation and end
`failed`. -/
def finalEvents (env : Env) : List Ev :=
  if pushedNames env = [] then
    [ { status := .failed, progress := progressAfterPush env
      , msg := failSummaryMsg env, addResults := [], setManifest := none } ]
  else
    [ { status := .pushing, progress := manifestProgress
      , msg := "creating manifest list", addResults := []
      , setManifest := some (pushedNames env) }
    , match env.manifestOutcome with
      | .ok =>
        { status := .success, progress := successProgress
        , msg := "manifest pushed", addResults := [], setManifest := none }
      | .pushError =>
        { status := .failed, progress := manifestProgress
        , msg := "manifest push error", addResults := [], setManifest := none } ]

/-- Modelled from the spec: the full ordered sequence of registry mutations
that one Docker-path strategy run performs. -/
def dockerEvents (env : Env) : List Ev :=
  pullEvents env ++ pushEvents env ++ finalEvents env

/-- The trace of task snapshots a poller can observe over the task's
lifetime: the initial `pending` snapshot followed by the snapshot after each
registry mutation. -/
def dockerTrace (env : Env) : List TaskSnapshot :=
  List.scanl applyEv initialSnap (dockerEvents env)

/-- The task's final (terminal) snapshot. -/
def finalSnap (env : Env) : TaskSnapshot :=
  (dockerTrace env).getLastD initialSnap

/-! ### Status transition order -/

/-- Position of a status in the pipeline order
pending, then pulling, then pushing, then terminal. -/
def Status.rank : Status → ℕ
  | .pending => 0
  | .pulling => 1
  | .pushing => 2
  | .success => 3
  | .failed => 3

/-- Terminal statuses. -/
def Status.isTerminal : Status → Bool
  | .success => true
  | .failed => true
  | _ => false

/-- A legal consecutive status transition: never backward in the pipeline
order and never out of a terminal state. -/
def allowedTransition (a b : Status) : Prop :=
  a.rank ≤ b.rank ∧ a.isTerminal = false

/-! ### Command Runner -/

/-- What the operating system does with one external invocation: either the
process starts and ends with an exit code and combined output, or it fails
to start at all (binary not found). -/
inductive ProcOutcome where
  | started (exitCode : ℕ) (output : List String)
  | startFailure (message : String)
deriving DecidableEq

/-- Modelled from the spec: the Command Runner returns {exit code, combined
captured output} normally for any exit code, and raises an error exactly
when the process fails to start (the error carries no process output). -/
def runCommand : ProcOutcome → Except String (ℕ × List String)
  | .started c o => .ok (c, o)
  | .startFailure m => .error m

/-! ### Sync orchestrator: requests, validation, destination resolution -/

/-- Destination-registry credentials. -/
structure Creds where
  username : String
  password : String
deriving DecidableEq

/-- A sync request, per the spec data model (empty string encodes an
omitted optional field, as in the frontend request body). -/
structure SyncRequest where
  sourceImage : String
  targetRegistry : String
  targetProject : String
  targetImageName : String
  targetTag : String
  platforms : List String
  credentials : Option Creds
deriving DecidableEq

/-- Characters of `l` before the first occurrence of `c` (all of `l` when
`c` does not occur). -/
def takeUntil (c : Char) : List Char → List Char
  | [] => []
  | x :: xs => if x = c then [] else x :: takeUntil c xs

/-- Characters of `l` after the first occurrence of `c`, or `none` when `c`
does not occur. -/
def dropUntil (c : Char) : List Char → Option (List Char)
  | [] => none
  | x :: xs => if x = c then some xs else dropUntil c xs

/-- The repository part of a source reference (before the `:`). -/
def sourceRepo (src : String) : String :=
  String.mk (takeUntil ':' src.data)

/-- The tag part of a source reference, defaulting to `latest`. -/
def sourceTag (src : String) : String :=
  match dropUntil ':' src.data with
  | some t => String.mk t
  | none => "latest"

/-- The short repository name of a source reference
(last `/`-separated component, e.g. `redis` for `bitnami/redis:7.0`). -/
def repoShortName (src : String) : String :=
  String.mk (takeUntil '/' (sourceRepo src).data.reverse).reverse

/-- Modelled from the spec: destination reference
`{registry}/{project}/{name}:{tag}`, substituting `library` for an omitted
project and source-derived defaults for omitted name/tag. -/
def resolveDestination (registry project name tag source : String) : String :=
  let proj := if project = "" then "library" else project
  let nm := if name = "" then repoShortName source else name
  let tg := if tag = "" then sourceTag source else tag
  registry ++ "/" ++ proj ++ "/" ++ nm ++ ":" ++ tg

/-- The process-wide task registry: id-to-task map plus the next fresh id. -/
structure TaskRegistry where
  tasks : List (ℕ × TaskSnapshot)
  nextId : ℕ
deriving DecidableEq

/-- Modelled from the spec: the create-sync-task operation. Validation
failures (empty source, empty destination registry, empty platform set) are
rejected synchronously, returning the registry unchanged, before any task
is created; otherwise a fresh `pending` task is stored and its id
returned. -/
def createSyncTask (reg : TaskRegistry) (req : SyncRequest) :
    TaskRegistry × Except String ℕ :=
  if req.sourceImage = "" then (reg, .error "source image is required")
  else if req.targetRegistry = "" then (reg, .error "target registry is required")
  else if req.platforms = [] then (reg, .error "platform set must be non-empty")
  else
    ( { tasks := reg.tasks ++ [(reg.nextId, initialSnap)], nextId := reg.nextId + 1 }
    , .ok reg.nextId )

/-! ### Credential provider and configuration frame -/

/-- Global destination-credential configuration. -/
structure HarborConfig where
  registry : String
  username : String
  password : String
deriving DecidableEq

/-- Modelled from the spec: credentials resolved for one task at creation:
the request's override when present, else the configured default, else
none. -/
def resolveCredentials (cfg : HarborConfig) (req : SyncRequest) : Option Creds :=
  match req.credentials with
  | some c => some c
  | none => if cfg.username = "" then none else some ⟨cfg.username, cfg.password⟩

/-- Whole-orchestrator state: global credential configuration plus the task
registry, each task remembering the credentials resolved at its creation. -/
structure OrchestratorState where
  config : HarborConfig
  tasks : List (ℕ × TaskSnapshot × Option Creds)
  nextId : ℕ
deriving DecidableEq

/-- Modelled from the spec: the explicit configure-destination-credentials
operation; the only operation that changes the global configuration. -/
def configureHarbor (st : OrchestratorState) (r u p : String) : OrchestratorState :=
  { st with config := { registry := r, username := u, password := p } }

/-- Modelled from the spec: task creation resolves credentials once from
the request and the current configuration and stores them with the task. -/
def createTask (st : OrchestratorState) (req : SyncRequest) : OrchestratorState × ℕ :=
  ( { st with
        tasks := st.tasks ++ [(st.nextId, initialSnap, resolveCredentials st.config req)]
      , nextId := st.nextId + 1 }
  , st.nextId )

/-- Modelled from the spec: running a task mutates only that task's record
in the registry (its snapshot becomes the pipeline's final snapshot); the
global credential configuration and the task's resolved credentials are
untouched. -/
def runTask (st : OrchestratorState) (id : ℕ) (env : Env) : OrchestratorState :=
  { st with
      tasks := st.tasks.map (fun t => if t.1 = id then (t.1, finalSnap env, t.2.2) else t) }

/-! ### Arithmetic helper lemmas about the progress formulas -/

theorem mul_div_self_le (a n : ℕ) : a * n / n ≤ a := by
  cases n with
  | zero => simp
  | succ k => rw [Nat.mul_div_cancel _ (Nat.succ_pos k)]

theorem pullProgress_mono {i j : ℕ} (n : ℕ) (h : i ≤ j) :
    pullProgress i n ≤ pullProgress j n :=
  Nat.div_le_div_right (Nat.mul_le_mul_left 50 h)

theorem pullProgress_le_50 {i n : ℕ} (h : i ≤ n) : pullProgress i n ≤ 50 :=
  le_trans (Nat.div_le_div_right (Nat.mul_le_mul_left 50 h)) (mul_div_self_le 50 n)

theorem pushProgress_ge_50 (i n : ℕ) : 50 ≤ pushProgress i n :=
  Nat.le_add_right 50 _

theorem pushProgress_mono {i j : ℕ} (n : ℕ) (h : i ≤ j) :
    pushProgress i n ≤ pushProgress j n :=
  Nat.add_le_add_left (Nat.div_le_div_right (Nat.mul_le_mul_left 40 h)) 50

theorem pushProgress_le_90 {i n : ℕ} (h : i ≤ n) : pushProgress i n ≤ 90 :=
  Nat.add_le_add_left
    (le_trans (Nat.div_le_div_right (Nat.mul_le_mul_left 40 h)) (mul_div_self_le 40 n)) 50

theorem progressAfterPush_le_90 (env : Env) : progressAfterPush env ≤ 90 := by
  unfold progressAfterPush
  split
  · exact le_trans (pullProgress_le_50 (le_refl _)) (by norm_num)
  · exact pushProgress_le_90 (List.length_filter_le _ _)

/-! ### Generic lemmas about event traces -/

theorem scanl_map_eq {α : Type} (f : TaskSnapshot → α) (g : Ev → α)
    (hf : ∀ a e, f (applyEv a e) = g e) :
    ∀ (evs : List Ev) (s : TaskSnapshot),
      (List.scanl applyEv s evs).map f = f s :: evs.map g
  | [], _ => by simp
  | e :: evs, s => by
      simp only [List.scanl, List.map_cons]
      rw [scanl_map_eq f g hf evs (applyEv s e), hf]

theorem rel_of_mem_scanl {R : TaskSnapshot → TaskSnapshot → Prop}
    (hrefl : ∀ a, R a a) (htrans : ∀ a b c, R a b → R b c → R a c)
    (hstep : ∀ a e, R a (applyEv a e)) :
    ∀ (evs : List Ev) (s t : TaskSnapshot), t ∈ List.scanl applyEv s evs → R s t
  | [], s, t, ht => by
      simp only [List.scanl, List.mem_singleton] at ht
      exact ht ▸ hrefl s
  | e :: evs, s, t, ht => by
      simp only [List.scanl, List.mem_cons] at ht
      rcases ht with rfl | ht
      · exact hrefl t
      · exact htrans _ _ _ (hstep s e)
          (rel_of_mem_scanl hrefl htrans hstep evs (applyEv s e) t ht)

theorem pairwise_scanl {R : TaskSnapshot → TaskSnapshot → Prop}
    (hrefl : ∀ a, R a a) (htrans : ∀ a b c, R a b → R b c → R a c)
    (hstep : ∀ a e, R a (applyEv a e)) :
    ∀ (evs : List Ev) (s : TaskSnapshot), List.Pairwise R (List.scanl applyEv s evs)
  | [], s => by simp
  | e :: evs, s => by
      simp only [List.scanl]
      refine List.Pairwise.cons ?_ (pairwise_scanl hrefl htrans hstep evs (applyEv s e))
      intro t ht
      exact htrans _ _ _ (hstep s e)
        (rel_of_mem_scanl hrefl htrans hstep evs (applyEv s e) t ht)

theorem mem_scanl_cases :
    ∀ (evs : List Ev) (s t : TaskSnapshot), t ∈ List.scanl applyEv s evs →
      t = s ∨ ∃ e ∈ evs, t.status = e.status ∧ t.progress = e.progress
  | [], s, t, ht => by
      simp only [List.scanl, List.mem_singleton] at ht
      exact Or.inl ht
  | e :: evs, s, t, ht => by
      simp only [List.scanl, List.mem_cons] at ht
      rcases ht with rfl | ht
      · exact Or.inl rfl
      · rcases mem_scanl_cases evs (applyEv s e) t ht with rfl | ⟨e', he', h1, h2⟩
        · exact Or.inr ⟨e, List.mem_cons_self e evs, rfl, rfl⟩
        · exact Or.inr ⟨e', List.mem_cons_of_mem e he', h1, h2⟩

theorem getLastD_scanl :
    ∀ (evs : List Ev) (s d : TaskSnapshot),
      (List.scanl applyEv s evs).getLastD d = List.foldl applyEv s evs
  | [], s, d => rfl
  | e :: evs, s, d => by
      simp only [List.scanl, List.foldl, List.getLastD_cons]
      exact getLastD_scanl evs (applyEv s e) s

theorem finalSnap_eq_foldl (env : Env) :
    finalSnap env = List.foldl applyEv initialSnap (dockerEvents env) :=
  getLastD_scanl (dockerEvents env) initialSnap initialSnap

theorem foldl_manifest_none :
    ∀ (evs : List Ev) (s : TaskSnapshot), (∀ e ∈ evs, e.setManifest = none) →
      (List.foldl applyEv s evs).manifest = s.manifest
  | [], s, _ => rfl
  | e :: evs, s, h => by
      simp only [List.foldl]
      rw [foldl_manifest_none evs (applyEv s e) (fun e' he' => h e' (List.mem_cons_of_mem e he'))]
      simp [applyEv, h e (List.mem_cons_self e evs)]

/-! ### Claim theorems: command runner, validation, destination, credentials -/

/-- C6: the Command Runner returns {exit code, combined output} normally for
every started process (never an error for a non-zero exit code), and raises
an error exactly when the process failed to start; the start-failure error
carries no process output. -/
theorem C6_command_runner_errors :
    (∀ c o, runCommand (ProcOutcome.started c o) = Except.ok (c, o))
  ∧ (∀ m, runCommand (ProcOutcome.startFailure m) = Except.error m)
  ∧ (∀ r : ProcOutcome,
      (∃ m, runCommand r = Except.error m) ↔ (∃ m, r = ProcOutcome.startFailure m)) := by
  refine ⟨fun c o => rfl, fun m => rfl, fun r => ?_⟩
  cases r <;> simp [runCommand]

/-- C4: a sync request with an empty source reference, an empty destination
registry host, or an empty platform set is rejected with a synchronous
validation error and the task registry is left unchanged (no id allocated). -/
theorem C4_validation_rejects_before_creation (reg : TaskRegistry) (req : SyncRequest)
    (h : req.sourceImage = "" ∨ req.targetRegistry = "" ∨ req.platforms = []) :
    (createSyncTask reg req).1 = reg ∧ ∃ e, (createSyncTask reg req).2 = Except.error e := by
  unfold createSyncTask
  split_ifs with h1 h2 h3
  · exact ⟨rfl, "source image is required", rfl⟩
  · exact ⟨rfl, "target registry is required", rfl⟩
  · exact ⟨rfl, "platform set must be non-empty", rfl⟩
  · rcases h with h | h | h <;> contradiction

/-- Witness for C4 at a concrete invalid request (empty source image). -/
theorem C4_witness :
    (createSyncTask ⟨[], 0⟩
        ⟨"", "harbor.x", "library", "", "", ["linux/amd64"], none⟩).1 = ⟨[], 0⟩
  ∧ ∃ e, (createSyncTask ⟨[], 0⟩
        ⟨"", "harbor.x", "library", "", "", ["linux/amd64"], none⟩).2 = Except.error e :=
  C4_validation_rejects_before_creation ⟨[], 0⟩
    ⟨"", "harbor.x", "library", "", "", ["linux/amd64"], none⟩ (Or.inl rfl)

/-- C7: the resolved destination reference is `{registry}/{project}/{name}:{tag}`
with an omitted project defaulting to `library`, an omitted name defaulting to
the source repository name, an omitted tag defaulting to the source tag; and
source `nginx:latest` with registry `harbor.x` and all other fields omitted
resolves to `harbor.x/library/nginx:latest`. -/
theorem C7_destination_resolution (registry project name tag src : String)
    (hp : project ≠ "") (hn : name ≠ "") (ht : tag ≠ "") :
    resolveDestination registry project name tag src =
      registry ++ "/" ++ project ++ "/" ++ name ++ ":" ++ tag
  ∧ resolveDestination registry "" "" "" src =
      registry ++ "/" ++ "library" ++ "/" ++ repoShortName src ++ ":" ++ sourceTag src
  ∧ resolveDestination "harbor.x" "" "" "" "nginx:latest" = "harbor.x/library/nginx:latest" := by
  refine ⟨?_, ?_, ?_⟩
  · simp [resolveDestination, hp, hn, ht]
  · simp [resolveDestination]
  · rfl

/-- Witness for C7 at concrete non-empty fields. -/
theorem C7_witness :
    resolveDestination "harbor.x" "proj" "img" "v1" "nginx:latest" =
      "harbor.x" ++ "/" ++ "proj" ++ "/" ++ "img" ++ ":" ++ "v1"
  ∧ resolveDestination "harbor.x" "" "" "" "nginx:latest" =
      "harbor.x" ++ "/" ++ "library" ++ "/" ++ repoShortName "nginx:latest" ++ ":" ++
        sourceTag "nginx:latest"
  ∧ resolveDestination "harbor.x" "" "" "" "nginx:latest" = "harbor.x/library/nginx:latest" :=
  C7_destination_resolution "harbor.x" "proj" "img" "v1" "nginx:latest"
    (by decide) (by decide) (by decide)

/-- C8: per-request credentials override the configured defaults for that
task only; running a task never mutates the global credential configuration,
and only the explicit configure operation changes it (leaving every existing
task record, hence every running task's resolved credentials, untouched). -/
theorem C8_credentials_frame :
    (∀ (st : OrchestratorState) (id : ℕ) (env : Env),
        (runTask st id env).config = st.config)
  ∧ (∀ (st : OrchestratorState) (r u p : String),
        (configureHarbor st r u p).tasks = st.tasks
      ∧ (configureHarbor st r u p).nextId = st.nextId
      ∧ (configureHarbor st r u p).config = ⟨r, u, p⟩)
  ∧ (∀ (cfg : HarborConfig) (req : SyncRequest) (c : Creds),
        req.credentials = some c → resolveCredentials cfg req = some c) := by
  refine ⟨fun _ _ _ => rfl, fun _ _ _ _ => ⟨rfl, rfl, rfl⟩, fun cfg req c hc => ?_⟩
  simp [resolveCredentials, hc]

/-- Witness for C8 at a concrete state, request and override. -/
theorem C8_witness :
    (runTask ⟨⟨"h", "u", "p"⟩, [], 0⟩ 0 ⟨[], PushOutcome.ok⟩).config = ⟨"h", "u", "p"⟩
  ∧ resolveCredentials ⟨"h", "u", "p"⟩
      ⟨"nginx", "harbor.x", "library", "", "", ["linux/amd64"], some ⟨"me", "pw"⟩⟩ =
      some ⟨"me", "pw"⟩ :=
  ⟨C8_credentials_frame.1 ⟨⟨"h", "u", "p"⟩, [], 0⟩ 0 ⟨[], PushOutcome.ok⟩,
   C8_credentials_frame.2.2 ⟨"h", "u", "p"⟩
     ⟨"nginx", "harbor.x", "library", "", "", ["linux/amd64"], some ⟨"me", "pw"⟩⟩
     ⟨"me", "pw"⟩ rfl⟩

/-! ### C10: frontend platform selection invariant -/

theorem togglePlatform_preserves {l : List String} (pid : String)
    (h : l ≠ [] ∧ l.Nodup) : togglePlatform l pid ≠ [] ∧ (togglePlatform l pid).Nodup := by
  obtain ⟨hne, hnd⟩ := h
  unfold togglePlatform
  by_cases hc : l.contains pid
  · simp only [hc, if_true]
    by_cases hlen : l.length = 1
    · simp only [hlen, if_true]
      exact ⟨hne, hnd⟩
    · simp only [hlen, if_false]
      refine ⟨?_, List.Nodup.filter _ hnd⟩
      intro hfil
      have hall : ∀ a ∈ l, a = pid := by
        intro a ha
        have := List.filter_eq_nil_iff.mp hfil a ha
        simpa using this
      have hmem : pid ∈ l := List.elem_iff.mp hc
      cases l with
      | nil => exact hne rfl
      | cons a t =>
        cases t with
        | nil => exact hlen rfl
        | cons b t' =>
          have ha : a = pid := hall a (List.mem_cons_self _ _)
          have hb : b = pid := hall b (List.mem_cons_of_mem _ (List.mem_cons_self _ _))
          have : a ∉ b :: t' := (List.nodup_cons.mp hnd).1
          exact this (ha ▸ hb ▸ List.mem_cons_self _ _)
  · simp only [hc, if_false]
    constructor
    · simp
    · have hpid : pid ∉ l := fun hm => hc (List.elem_iff.mpr hm)
      refine List.nodup_append.mpr ⟨hnd, List.nodup_singleton pid, ?_⟩
      intro a ha hb
      rw [List.mem_singleton] at hb
      exact hpid (hb ▸ ha)

theorem foldl_toggle_invariant (ops : List String) :
    ∀ l : List String, l ≠ [] ∧ l.Nodup →
      List.foldl togglePlatform l ops ≠ [] ∧ (List.foldl togglePlatform l ops).Nodup := by
  induction ops with
  | nil => exact fun l h => h
  | cons op ops ih =>
      intro l h
      exact ih (togglePlatform l op) (togglePlatform_preserves op h)

/-- C10: the selected platform set is non-empty initially and stays
non-empty after every sequence of togglePlatform interactions; toggling off
the sole remaining platform is a no-op. -/
theorem C10_selection_never_empty :
    initialSelectedPlatforms ≠ []
  ∧ (∀ ops : List String, List.foldl togglePlatform initialSelectedPlatforms ops ≠ [])
  ∧ (∀ pid : String, togglePlatform [pid] pid = [pid]) := by
  refine ⟨by decide, fun ops => ?_, fun pid => ?_⟩
  · exact (foldl_toggle_invariant ops initialSelectedPlatforms ⟨by decide, by decide⟩).1
  · simp [togglePlatform]

/-- Witness for C10 on a concrete toggle sequence. -/
theorem C10_witness :
    List.foldl togglePlatform initialSelectedPlatforms
      ["linux/arm64", "linux/amd64", "linux/amd64"] ≠ [] :=
  C10_selection_never_empty.2.1 ["linux/arm64", "linux/amd64", "linux/amd64"]

/-! ### Structure of the event lists -/

theorem mem_enum_fst_lt {α : Type} {l : List α} {ip : ℕ × α} (h : ip ∈ l.enum) :
    ip.1 < l.length := by
  have h' : ip ∈ l.enumFrom 0 := h
  simpa using List.fst_lt_add_of_mem_enumFrom h'

theorem pairwise_enum_fst_lt {α : Type} (l : List α) :
    List.Pairwise (fun a b => a.1 < b.1) l.enum := by
  have h := List.pairwise_lt_range l.length
  rw [← List.enum_map_fst l] at h
  exact List.pairwise_map.mp h

theorem pullEvents_mem (env : Env) {e : Ev} (he : e ∈ pullEvents env) :
    ∃ i, i < env.platforms.length ∧ e.status = Status.pulling
      ∧ e.progress = pullProgress (i + 1) env.platforms.length
      ∧ e.setManifest = none := by
  obtain ⟨ip, hip, rfl⟩ := List.mem_map.mp he
  exact ⟨ip.1, mem_enum_fst_lt hip, rfl, rfl, rfl⟩

theorem pushEvents_mem (env : Env) {e : Ev} (he : e ∈ pushEvents env) :
    ∃ j, j < (pulledSpecs env).length ∧ e.status = Status.pushing
      ∧ e.progress = pushProgress (j + 1) env.platforms.length
      ∧ e.setManifest = none := by
  obtain ⟨jp, hjp, rfl⟩ := List.mem_map.mp he
  exact ⟨jp.1, mem_enum_fst_lt hjp, rfl, rfl, rfl⟩

/-! ### C5: the log is append-only, never truncated, never reordered -/

/-- C5: over any task's observed lifetime, any later snapshot's log has any
earlier snapshot's log as a prefix (in particular log length never
decreases and the log is never reordered or truncated). -/
theorem C5_log_append_only (env : Env) :
    List.Pairwise
      (fun a b : TaskSnapshot => a.log.length ≤ b.log.length ∧ ∃ t, b.log = a.log ++ t)
      (dockerTrace env) := by
  unfold dockerTrace
  apply pairwise_scanl
  · exact fun a => ⟨le_refl _, [], by simp⟩
  · rintro a b c ⟨h1, t1, ht1⟩ ⟨h2, t2, ht2⟩
    exact ⟨le_trans h1 h2, t1 ++ t2, by rw [ht2, ht1, List.append_assoc]⟩
  · intro a e
    refine ⟨?_, [e.msg], rfl⟩
    simp [applyEv]

/-! ### C9: progress allocation across the phases -/

/-- C9: pulling-phase progress lies in 0-50, pushing-phase progress lies in
50-90, manifest creation+push lies in 90-100, and when the number of
platforms divides the phase span each per-platform step advances progress by
the same even increment (50/n pulling, 40/n pushing). -/
theorem C9_progress_allocation (n i : ℕ) (hn : 0 < n) (hi : i ≤ n) :
    pullProgress i n ≤ 50
  ∧ 50 ≤ pushProgress i n ∧ pushProgress i n ≤ 90
  ∧ manifestProgress = 90 ∧ successProgress = 100
  ∧ (∀ j, n ∣ 50 → pullProgress (j + 1) n - pullProgress j n = 50 / n)
  ∧ (∀ j, n ∣ 40 → pushProgress (j + 1) n - pushProgress j n = 40 / n) := by
  refine ⟨pullProgress_le_50 hi, pushProgress_ge_50 i n, pushProgress_le_90 hi,
    rfl, rfl, ?_, ?_⟩
  · intro j hdvd
    obtain ⟨k, hk⟩ := hdvd
    have e1 : pullProgress (j + 1) n = k * (j + 1) := by
      rw [pullProgress, hk, Nat.mul_assoc, Nat.mul_div_cancel_left _ hn]
    have e2 : pullProgress j n = k * j := by
      rw [pullProgress, hk, Nat.mul_assoc, Nat.mul_div_cancel_left _ hn]
    rw [e1, e2, Nat.mul_succ, Nat.add_sub_cancel_left, hk,
      Nat.mul_div_cancel_left _ hn]
  · intro j hdvd
    obtain ⟨k, hk⟩ := hdvd
    have e1 : pushProgress (j + 1) n = 50 + k * (j + 1) := by
      rw [pushProgress, hk, Nat.mul_assoc, Nat.mul_div_cancel_left _ hn]
    have e2 : pushProgress j n = 50 + k * j := by
      rw [pushProgress, hk, Nat.mul_assoc, Nat.mul_div_cancel_left _ hn]
    rw [e1, e2, Nat.mul_succ, ← Nat.add_assoc, Nat.add_sub_cancel_left, hk,
      Nat.mul_div_cancel_left _ hn]

/-- Witness for C9 with two platforms. -/
theorem C9_witness :
    pullProgress 1 2 ≤ 50 ∧ 50 ≤ pushProgress 1 2 ∧ pushProgress 1 2 ≤ 90
  ∧ pullProgress 1 2 - pullProgress 0 2 = 50 / 2
  ∧ pushProgress 2 2 - pushProgress 1 2 = 40 / 2 := by
  have h := C9_progress_allocation 2 1 (by decide) (by decide)
  exact ⟨h.1, h.2.1, h.2.2.1, h.2.2.2.2.2.1 0 (by decide),
    h.2.2.2.2.2.2 1 (by decide)⟩

/-! ### C3: progress monotonicity and the 100-iff-success invariant -/

theorem pullProgressList_cases {env : Env} {x : ℕ}
    (hx : x ∈ (pullEvents env).map Ev.progress) :
    ∃ i, i < env.platforms.length ∧ x = pullProgress (i + 1) env.platforms.length := by
  obtain ⟨e, he, rfl⟩ := List.mem_map.mp hx
  obtain ⟨i, hi, _, hp, _⟩ := pullEvents_mem env he
  exact ⟨i, hi, hp⟩

theorem pushProgressList_cases {env : Env} {x : ℕ}
    (hx : x ∈ (pushEvents env).map Ev.progress) :
    ∃ j, j < (pulledSpecs env).length ∧ x = pushProgress (j + 1) env.platforms.length := by
  obtain ⟨e, he, rfl⟩ := List.mem_map.mp hx
  obtain ⟨j, hj, _, hp, _⟩ := pushEvents_mem env he
  exact ⟨j, hj, hp⟩

theorem pairwise_le_pullProgressList (env : Env) :
    List.Pairwise (· ≤ ·) ((pullEvents env).map Ev.progress) := by
  rw [pullEvents, List.map_map]
  refine List.pairwise_map.mpr ?_
  refine (pairwise_enum_fst_lt env.platforms).imp ?_
  intro a b hab
  exact pullProgress_mono env.platforms.length (Nat.succ_le_succ (le_of_lt hab))

theorem pairwise_le_pushProgressList (env : Env) :
    List.Pairwise (· ≤ ·) ((pushEvents env).map Ev.progress) := by
  rw [pushEvents, List.map_map]
  refine List.pairwise_map.mpr ?_
  refine (pairwise_enum_fst_lt (pulledSpecs env)).imp ?_
  intro a b hab
  exact pushProgress_mono env.platforms.length (Nat.succ_le_succ (le_of_lt hab))

theorem progress_pairwise (env : Env) :
    List.Pairwise (· ≤ ·) ((dockerTrace env).map TaskSnapshot.progress) := by
  have hmap := scanl_map_eq TaskSnapshot.progress Ev.progress (fun a e => rfl)
    (dockerEvents env) initialSnap
  rw [dockerTrace, hmap]
  rw [dockerEvents, List.map_append, List.map_append]
  refine List.pairwise_cons.mpr ⟨fun y _ => Nat.zero_le y, ?_⟩
  have hmn : (pulledSpecs env).length ≤ env.platforms.length :=
    List.length_filter_le _ _
  have hA50 : ∀ x ∈ (pullEvents env).map Ev.progress, x ≤ 50 := by
    intro x hx
    obtain ⟨i, hi, rfl⟩ := pullProgressList_cases hx
    exact pullProgress_le_50 hi
  have hB50 : ∀ x ∈ (pushEvents env).map Ev.progress, 50 ≤ x := by
    intro x hx
    obtain ⟨j, _, rfl⟩ := pushProgressList_cases hx
    exact pushProgress_ge_50 _ _
  have hBm : ∀ x ∈ (pushEvents env).map Ev.progress,
      x ≤ pushProgress (pulledSpecs env).length env.platforms.length := by
    intro x hx
    obtain ⟨j, hj, rfl⟩ := pushProgressList_cases hx
    exact pushProgress_mono _ hj
  have hB90 : ∀ x ∈ (pushEvents env).map Ev.progress, x ≤ 90 :=
    fun x hx => le_trans (hBm x hx) (pushProgress_le_90 hmn)
  have hAC : ∀ x ∈ (pullEvents env).map Ev.progress, x ≤ progressAfterPush env := by
    intro x hx
    obtain ⟨i, hi, rfl⟩ := pullProgressList_cases hx
    unfold progressAfterPush
    split
    · exact pullProgress_mono _ hi
    · exact le_trans (pullProgress_le_50 hi) (pushProgress_ge_50 _ _)
  have hBC : ∀ x ∈ (pushEvents env).map Ev.progress, x ≤ progressAfterPush env := by
    intro x hx
    obtain ⟨j, hj, rfl⟩ := pushProgressList_cases hx
    unfold progressAfterPush
    split
    · omega
    · exact pushProgress_mono _ hj
  refine List.pairwise_append.mpr
    ⟨List.pairwise_append.mpr
      ⟨pairwise_le_pullProgressList env, pairwise_le_pushProgressList env,
        fun x hx y hy => le_trans (hA50 x hx) (hB50 y hy)⟩, ?_, ?_⟩
  · -- Pairwise on the final-events progress list
    by_cases hps : pushedNames env = []
    · simp [finalEvents, hps]
    · cases hmo : env.manifestOutcome <;>
        simp [finalEvents, hps, hmo, manifestProgress, successProgress]
  · -- pull- and push-phase values are below every final value
    intro x hx y hy
    have hxle : x ≤ progressAfterPush env ∧ x ≤ 90 := by
      rcases List.mem_append.mp hx with h | h
      · exact ⟨hAC x h, le_trans (hA50 x h) (by norm_num)⟩
      · exact ⟨hBC x h, hB90 x h⟩
    by_cases hps : pushedNames env = []
    · simp only [finalEvents, hps, if_pos rfl] at hy
      simp at hy
      rw [hy]
      exact hxle.1
    · cases hmo : env.manifestOutcome
      · simp [finalEvents, hps, hmo, manifestProgress, successProgress] at hy
        rcases hy with rfl | rfl <;> omega
      · simp [finalEvents, hps, hmo, manifestProgress] at hy
        omega

theorem dockerEvents_progress_iff (env : Env) :
    ∀ e ∈ dockerEvents env, (e.progress = 100 ↔ e.status = Status.success) := by
  intro e he
  have hmn : (pulledSpecs env).length ≤ env.platforms.length :=
    List.length_filter_le _ _
  rcases List.mem_append.mp he with he | he
  · rcases List.mem_append.mp he with he | he
    · obtain ⟨i, hi, hst, hp, _⟩ := pullEvents_mem env he
      have : e.progress ≤ 50 := hp ▸ pullProgress_le_50 hi
      constructor
      · intro h100; omega
      · intro hsucc; rw [hst] at hsucc; exact absurd hsucc (by decide)
    · obtain ⟨j, hj, hst, hp, _⟩ := pushEvents_mem env he
      have : e.progress ≤ 90 :=
        hp ▸ le_trans (pushProgress_mono _ hj) (pushProgress_le_90 hmn)
      constructor
      · intro h100; omega
      · intro hsucc; rw [hst] at hsucc; exact absurd hsucc (by decide)
  · by_cases hps : pushedNames env = []
    · simp only [finalEvents, hps, if_pos rfl] at he
      simp at he
      subst he
      have h90 : progressAfterPush env ≤ 90 := progressAfterPush_le_90 env
      show progressAfterPush env = 100 ↔ Status.failed = Status.success
      constructor
      · intro h100; omega
      · intro hsucc; exact absurd hsucc (by simp)
    · cases hmo : env.manifestOutcome
      · simp only [finalEvents, if_neg hps, hmo] at he
        rcases List.mem_cons.mp he with rfl | he
        · show manifestProgress = 100 ↔ Status.pushing = Status.success
          simp [manifestProgress]
        · rcases List.mem_cons.mp he with rfl | he
          · show successProgress = 100 ↔ Status.success = Status.success
            simp [successProgress]
          · exact absurd he (List.not_mem_nil e)
      · simp only [finalEvents, if_neg hps, hmo] at he
        rcases List.mem_cons.mp he with rfl | he
        · show manifestProgress = 100 ↔ Status.pushing = Status.success
          simp [manifestProgress]
        · rcases List.mem_cons.mp he with rfl | he
          · show manifestProgress = 100 ↔ Status.failed = Status.success
            simp [manifestProgress]
          · exact absurd he (List.not_mem_nil e)

/-- C3: progress is monotonically non-decreasing over the task's whole
observed lifetime (any earlier snapshot's progress is at most any later
snapshot's), and a snapshot's progress is 100 exactly when its status is
`success`. -/
theorem C3_progress_monotone (env : Env) :
    List.Pairwise (fun a b : TaskSnapshot => a.progress ≤ b.progress) (dockerTrace env)
  ∧ ∀ s ∈ dockerTrace env, (s.progress = 100 ↔ s.status = Status.success) := by
  constructor
  · exact List.pairwise_map.mp (progress_pairwise env)
  · intro s hs
    rcases mem_scanl_cases (dockerEvents env) initialSnap s hs with rfl | ⟨e, he, h1, h2⟩
    · simp [initialSnap]
    · rw [h1, h2]
      exact dockerEvents_progress_iff env e he

/-- Witness for C3 at the initial snapshot of a concrete run. -/
theorem C3_witness :
    (initialSnap.progress = 100 ↔ initialSnap.status = Status.success) :=
  (C3_progress_monotone ⟨[], PushOutcome.ok⟩).2 initialSnap (by decide)

/-! ### C2: status transition discipline -/

instance : DecidableRel allowedTransition := fun a b =>
  inferInstanceAs (Decidable (a.rank ≤ b.rank ∧ a.isTerminal = false))

theorem allowed_from_pending (b : Status) : allowedTransition .pending b :=
  ⟨Nat.zero_le _, rfl⟩

theorem head?_replicate_append {α : Type} (k : ℕ) (s : α) (l : List α) :
    (List.replicate k s ++ l).head? = if k = 0 then l.head? else some s := by
  cases k <;> simp [List.replicate_succ]

theorem chain'_replicate_append {R : Status → Status → Prop} {s : Status} (hss : R s s) :
    ∀ (k : ℕ) (l : List Status), List.Chain' R l → (∀ y ∈ l.head?, R s y) →
      List.Chain' R (List.replicate k s ++ l)
  | 0, l, hl, _ => by simpa using hl
  | k + 1, l, hl, hhd => by
      rw [List.replicate_succ, List.cons_append, List.chain'_cons']
      refine ⟨?_, chain'_replicate_append hss k l hl hhd⟩
      intro y hy
      rw [head?_replicate_append] at hy
      by_cases hk : k = 0
      · rw [if_pos hk] at hy
        exact hhd y hy
      · rw [if_neg hk] at hy
        simp at hy
        subst hy
        exact hss

theorem pullEvents_status_list (env : Env) :
    (pullEvents env).map Ev.status =
      List.replicate env.platforms.length Status.pulling := by
  rw [pullEvents, List.map_map]
  rw [show (Ev.status ∘ fun ip : ℕ × PlatformSpec =>
      mkPullEv env.platforms.length ip.1 ip.2) = fun _ => Status.pulling from rfl]
  rw [List.map_const', List.enum_length]

theorem pushEvents_status_list (env : Env) :
    (pushEvents env).map Ev.status =
      List.replicate (pulledSpecs env).length Status.pushing := by
  rw [pushEvents, List.map_map]
  rw [show (Ev.status ∘ fun jp : ℕ × PlatformSpec =>
      mkPushEv env.platforms.length jp.1 jp.2) = fun _ => Status.pushing from rfl]
  rw [List.map_const', List.enum_length]

theorem finalEvents_status_facts (env : Env) :
    List.Chain' allowedTransition ((finalEvents env).map Ev.status)
  ∧ ∀ y ∈ ((finalEvents env).map Ev.status).head?,
      (y = Status.failed ∨ y = Status.pushing) := by
  by_cases hps : pushedNames env = []
  · simp only [finalEvents, if_pos hps]
    refine ⟨List.chain'_singleton _, ?_⟩
    intro y hy
    simp at hy
    exact Or.inl hy.symm
  · cases hmo : env.manifestOutcome
    · simp only [finalEvents, if_neg hps, hmo]
      refine ⟨?_, ?_⟩
      · exact List.chain'_pair.mpr
          (by decide : allowedTransition Status.pushing Status.success)
      · intro y hy
        simp at hy
        exact Or.inr hy.symm
    · simp only [finalEvents, if_neg hps, hmo]
      refine ⟨?_, ?_⟩
      · exact List.chain'_pair.mpr
          (by decide : allowedTransition Status.pushing Status.failed)
      · intro y hy
        simp at hy
        exact Or.inr hy.symm

/-- C2: along any task's observed lifetime, consecutive statuses only move
forward through pending, pulling, pushing, terminal (never backward and
never out of a terminal state), and the status enum is exactly the five
keys of the frontend `STATUS_MAP`: pending, pulling, pushing, success,
failed. -/
theorem C2_status_transitions (env : Env) :
    List.Chain' allowedTransition ((dockerTrace env).map TaskSnapshot.status)
  ∧ STATUS_MAP.map (fun e => e.1) = allStatuses.map Status.key
  ∧ (∀ s : Status, s ∈ allStatuses) := by
  refine ⟨?_, rfl, fun s => by cases s <;> decide⟩
  have hmap := scanl_map_eq TaskSnapshot.status Ev.status (fun a e => rfl)
    (dockerEvents env) initialSnap
  rw [dockerTrace, hmap]
  show List.Chain' allowedTransition (Status.pending :: (dockerEvents env).map Ev.status)
  rw [dockerEvents, List.map_append, List.map_append,
    pullEvents_status_list, pushEvents_status_list, List.append_assoc]
  refine List.chain'_cons'.mpr ⟨fun y _ => allowed_from_pending y, ?_⟩
  obtain ⟨hFchain, hFhead⟩ := finalEvents_status_facts env
  have hinner : List.Chain' allowedTransition
      (List.replicate (pulledSpecs env).length Status.pushing ++
        (finalEvents env).map Ev.status) := by
    refine chain'_replicate_append (by decide) _ _ hFchain ?_
    intro y hy
    rcases hFhead y hy with rfl | rfl <;> decide
  refine chain'_replicate_append (by decide) _ _ hinner ?_
  intro y hy
  rw [head?_replicate_append] at hy
  by_cases hm : (pulledSpecs env).length = 0
  · rw [if_pos hm] at hy
    rcases hFhead y hy with rfl | rfl <;> decide
  · rw [if_neg hm] at hy
    simp at hy
    subst hy
    decide

/-! ### C1: final outcome of the Docker-path strategy -/

theorem pullEvents_setManifest_none (env : Env) :
    ∀ e ∈ pullEvents env, e.setManifest = none := by
  intro e he
  obtain ⟨_, _, _, _, h⟩ := pullEvents_mem env he
  exact h

theorem pushEvents_setManifest_none (env : Env) :
    ∀ e ∈ pushEvents env, e.setManifest = none := by
  intro e he
  obtain ⟨_, _, _, _, h⟩ := pushEvents_mem env he
  exact h

/-- C1: the task ends `success` with progress 100 exactly when at least one
platform was pushed and the manifest push succeeded; when zero platforms
were pushed the manifest is never created and the task ends `failed`; when
at least one platform was pushed and the manifest push succeeded the
manifest references exactly the pushed platforms; a manifest push error
ends the task `failed`. -/
theorem C1_docker_final_outcome (env : Env) :
    (((finalSnap env).status = Status.success ∧ (finalSnap env).progress = 100) ↔
      (pushedNames env ≠ [] ∧ env.manifestOutcome = PushOutcome.ok))
  ∧ (pushedNames env = [] →
      (finalSnap env).status = Status.failed ∧ (finalSnap env).manifest = none)
  ∧ (pushedNames env ≠ [] → env.manifestOutcome = PushOutcome.ok →
      (finalSnap env).status = Status.success ∧ (finalSnap env).progress = 100 ∧
        (finalSnap env).manifest = some (pushedNames env))
  ∧ (pushedNames env ≠ [] → env.manifestOutcome = PushOutcome.pushError →
      (finalSnap env).status = Status.failed) := by
  have hF : finalSnap env =
      List.foldl applyEv
        (List.foldl applyEv (List.foldl applyEv initialSnap (pullEvents env))
          (pushEvents env))
        (finalEvents env) := by
    rw [finalSnap_eq_foldl, dockerEvents, List.foldl_append, List.foldl_append]
  have hmidm : (List.foldl applyEv
      (List.foldl applyEv initialSnap (pullEvents env)) (pushEvents env)).manifest
      = none := by
    rw [foldl_manifest_none (pushEvents env) _ (pushEvents_setManifest_none env),
      foldl_manifest_none (pullEvents env) _ (pullEvents_setManifest_none env)]
    rfl
  by_cases hps : pushedNames env = []
  · have hfe : finalEvents env =
        [ { status := .failed, progress := progressAfterPush env
          , msg := failSummaryMsg env, addResults := [], setManifest := none } ] := by
      rw [finalEvents, if_pos hps]
    have hstat : (finalSnap env).status = Status.failed := by
      rw [hF, hfe]
      rfl
    have hman : (finalSnap env).manifest = none := by
      rw [hF, hfe]
      exact hmidm
    refine ⟨?_, fun _ => ⟨hstat, hman⟩, fun hne => absurd hps hne,
      fun hne _ => absurd hps hne⟩
    constructor
    · rintro ⟨hsucc, _⟩
      rw [hstat] at hsucc
      exact absurd hsucc (by simp)
    · rintro ⟨hne, _⟩
      exact absurd hps hne
  · cases hmo : env.manifestOutcome
    · have hfe : finalEvents env =
          [ { status := .pushing, progress := manifestProgress
            , msg := "creating manifest list", addResults := []
            , setManifest := some (pushedNames env) }
          , { status := .success, progress := successProgress
            , msg := "manifest pushed", addResults := [], setManifest := none } ] := by
        rw [finalEvents, if_neg hps, hmo]
      have hstat : (finalSnap env).status = Status.success := by
        rw [hF, hfe]
        rfl
      have hprog : (finalSnap env).progress = 100 := by
        rw [hF, hfe]
        rfl
      have hman : (finalSnap env).manifest = some (pushedNames env) := by
        rw [hF, hfe]
        rfl
      exact ⟨⟨fun _ => ⟨hps, rfl⟩, fun _ => ⟨hstat, hprog⟩⟩,
        fun h0 => absurd h0 hps, fun _ _ => ⟨hstat, hprog, hman⟩,
        fun _ hpe => absurd hpe (by simp)⟩
    · have hfe : finalEvents env =
          [ { status := .pushing, progress := manifestProgress
            , msg := "creating manifest list", addResults := []
            , setManifest := some (pushedNames env) }
          , { status := .failed, progress := manifestProgress
            , msg := "manifest push error", addResults := [], setManifest := none } ] := by
        rw [finalEvents, if_neg hps, hmo]
      have hstat : (finalSnap env).status = Status.failed := by
        rw [hF, hfe]
        rfl
      refine ⟨?_, fun h0 => absurd h0 hps,
        fun _ hok => absurd hok (by simp), fun _ _ => hstat⟩
      constructor
      · rintro ⟨hsucc, _⟩
        rw [hstat] at hsucc
        exact absurd hsucc (by simp)
      · rintro ⟨_, hok⟩
        exact absurd hok (by simp)

/-- Witness for C1: a two-platform request where the source lacks the arm64
variant ends `success` at progress 100 with a one-entry manifest, and a
run whose only platform fails to pull ends `failed` with no manifest. -/
theorem C1_witness :
    (finalSnap ⟨[⟨"linux/amd64", PullOutcome.ok, PushOutcome.ok⟩,
        ⟨"linux/arm64", PullOutcome.missingPlatform, PushOutcome.ok⟩],
        PushOutcome.ok⟩).status = Status.success
  ∧ (finalSnap ⟨[⟨"linux/amd64", PullOutcome.ok, PushOutcome.ok⟩,
        ⟨"linux/arm64", PullOutcome.missingPlatform, PushOutcome.ok⟩],
        PushOutcome.ok⟩).progress = 100
  ∧ (finalSnap ⟨[⟨"linux/amd64", PullOutcome.ok, PushOutcome.ok⟩,
        ⟨"linux/arm64", PullOutcome.missingPlatform, PushOutcome.ok⟩],
        PushOutcome.ok⟩).manifest = some ["linux/amd64"]
  ∧ (finalSnap ⟨[⟨"linux/amd64", PullOutcome.pullError, PushOutcome.ok⟩],
        PushOutcome.ok⟩).status = Status.failed
  ∧ (finalSnap ⟨[⟨"linux/amd64", PullOutcome.pullError, PushOutcome.ok⟩],
        PushOutcome.ok⟩).manifest = none := by
  have hA := (C1_docker_final_outcome
    ⟨[⟨"linux/amd64", PullOutcome.ok, PushOutcome.ok⟩,
      ⟨"linux/arm64", PullOutcome.missingPlatform, PushOutcome.ok⟩],
      PushOutcome.ok⟩).2.2.1 (by decide) rfl
  have hB := (C1_docker_final_outcome
    ⟨[⟨"linux/amd64", PullOutcome.pullError, PushOutcome.ok⟩],
      PushOutcome.ok⟩).2.1 (by decide)
  refine ⟨hA.1, hA.2.1, ?_, hB.1, hB.2⟩
  rw [hA.2.2]
  decide

end ImageSync
